import Mathlib

/-!
# MIDI thru test application (C++ sample of midi.net)

Shallow embedding of `CannedBytes.Midi.MidiThruTestAppCpp.cpp`.

The program talks to the outside world only through calls to the
multimedia driver (`midiOutOpen`, `midiInOpen`, `midiInStart`,
`midiOutShortMsg`), the console (`std::cout`, `getchar`) and a stopwatch.
Every such call is recorded, in program order, in a trace of `Call`s; what the
outside world answers (driver result codes, handles, stopwatch readings) is
an explicit input of the embedded functions.
-/

namespace MidiThru

/-! ## Machine integers -/

/-- Conversion of an integer to a 32-bit unsigned value (`UINT`, `DWORD`). -/
def toUInt32 (i : Int) : Nat := (i % 2 ^ 32).toNat

/-- Conversion of a 32-bit unsigned value to `int` (two's complement). -/
def toInt32 (u : Nat) : Int :=
  if u % 2 ^ 32 < 2 ^ 31 then ((u % 2 ^ 32 : Nat) : Int) else ((u % 2 ^ 32 : Nat) : Int) - 2 ^ 32

/-- A 64-bit signed integer (`long long`, the type of `ElapsedTicks` and `Frequency`). -/
structure Long where
  val : Int
  lo : -(2 ^ 63) ≤ val
  hi : val < 2 ^ 63
  deriving DecidableEq

/-- Byte `k` (0 is the lowest) of an unsigned value. -/
def byteOf (v k : Nat) : Nat := v / 256 ^ k % 256

/-! ## Single-precision floating point

`float` is IEEE binary32: 24 significant bits, exponents from -126 to 127,
round to nearest with ties to even, every operation rounded once. Finite values
are kept as exact rationals; the sign of a zero is not tracked. -/

/-- Values of type `float`. -/
inductive F32 where
  | num (q : ℚ)
  | inf (neg : Bool)
  | nan
  deriving DecidableEq

/-- Largest `e` with `2 ^ e ≤ n / d`, for positive `n` and `d`. -/
def floorLog2 (n d : Nat) : Int :=
  let k : Int := (Nat.log2 n : Int) - (Nat.log2 d : Int)
  if (2 : ℚ) ^ k * d ≤ n then k else k - 1

/-- Rounding of a non-negative rational to the nearest natural number, ties to even. -/
def roundHalfEven (x : ℚ) : Nat :=
  let f : Nat := x.floor.toNat
  let r : ℚ := x - f
  if r < 1 / 2 then f
  else if 1 / 2 < r then f + 1
  else if f % 2 = 0 then f else f + 1

/-- Rounding of an exact rational to `float`. -/
def roundF32 (q : ℚ) : F32 :=
  if q = 0 then F32.num 0
  else
    let a : ℚ := |q|
    let e : Int := max (floorLog2 a.num.toNat a.den) (-126)
    let ulp : ℚ := (2 : ℚ) ^ (e - 23)
    let m : Nat := roundHalfEven (a / ulp)
    let v : ℚ := m * ulp
    if (2 : ℚ) ^ (128 : Nat) ≤ v then F32.inf (decide (q < 0))
    else if q < 0 then F32.num (-v) else F32.num v

/-- The conversion `(float)i` of an integer. -/
def F32.ofInt (i : Int) : F32 := roundF32 i

/-- Division of two `float`s. -/
def F32.div : F32 → F32 → F32
  | F32.nan, _ => F32.nan
  | _, F32.nan => F32.nan
  | F32.inf _, F32.inf _ => F32.nan
  | F32.inf s, F32.num b => F32.inf (xor s (decide (b < 0)))
  | F32.num _, F32.inf _ => F32.num 0
  | F32.num a, F32.num b =>
    if b = 0 then (if a = 0 then F32.nan else F32.inf (decide (a < 0)))
    else roundF32 (a / b)

/-- Product of two `float`s. -/
def F32.mul : F32 → F32 → F32
  | F32.nan, _ => F32.nan
  | _, F32.nan => F32.nan
  | F32.inf s, F32.inf t => F32.inf (xor s t)
  | F32.inf s, F32.num b => if b = 0 then F32.nan else F32.inf (xor s (decide (b < 0)))
  | F32.num a, F32.inf t => if a = 0 then F32.nan else F32.inf (xor (decide (a < 0)) t)
  | F32.num a, F32.num b => roundF32 (a * b)

/-! ## The outside world -/

/-- Modelled from the spec: the message type "data received" (`MIM_DATA`), a constant
of the platform header reached through `stdafx.h`, which is not part of the sources.
0x3C3 is its value in that header; no result below depends on the value. -/
def MIM_DATA : Nat := 0x3C3

/-- One insertion into `std::cout`. -/
inductive Out where
  | str (s : String)
  | flt (v : F32)
  | endl
  deriving DecidableEq

/-- One call made by the program, with the result the outside world gave it
where the program can see one. -/
inductive Call where
  /-- The call `midiOutOpen(&hMidiOut, uDeviceID, NULL, NULL, 0)` and its result. -/
  | midiOutOpen (uDeviceID : Nat) (result : Nat)
  /-- The call `midiInOpen(&hMidiIn, uDeviceID, &MidiInProc, 0, CALLBACK_FUNCTION)` and its result. -/
  | midiInOpen (uDeviceID : Nat) (result : Nat)
  /-- The call `midiInStart(hMidiIn)`. -/
  | midiInStart (hMidiIn : Nat)
  /-- The call `midiOutShortMsg(hMidiOut, dwMsg)` and its result. -/
  | midiOutShortMsg (hMidiOut : Nat) (dwMsg : Nat) (result : Nat)
  /-- The call `sw->Start()`. -/
  | swStart
  /-- The call `sw->Stop()`. -/
  | swStop
  /-- One `std::cout << ...`. -/
  | cout (o : Out)
  /-- The call `getchar()`. -/
  | getchar
  deriving DecidableEq

/-- The global variables `hMidiOut` and `hMidiIn` (`NULL` is 0). -/
structure Globals where
  hMidiOut : Nat
  hMidiIn : Nat
  deriving DecidableEq

/-- The initial values of the globals: both handles are `NULL`. -/
def Globals.init : Globals := ⟨0, 0⟩

/-- The arguments of one invocation of the input callback. -/
structure Event where
  hMidiIn : Nat
  msg : Nat
  dwInstance : Nat
  dwParam1 : Nat
  dwParam2 : Nat
  deriving DecidableEq

/-- What the outside world answers during one invocation of the callback:
the result of `midiOutShortMsg` and the stopwatch reading `sw->ElapsedTicks`
after `sw->Stop()`. -/
structure Probe where
  sendResult : Nat
  elapsedTicks : Long
  deriving DecidableEq

/-- What the driver answers to the two open calls, per device id: the result
code and the handle it stores through the pointer argument. -/
structure Driver where
  midiOutOpen : Nat → Nat × Nat
  midiInOpen : Nat → Nat × Nat

/-! ## The callback -/

/-- The expression `((float)sw->ElapsedTicks / (float)Stopwatch::Frequency) * 1000`. -/
def milleSecs (elapsedTicks frequency : Long) : F32 :=
  F32.mul (F32.div (F32.ofInt elapsedTicks.val) (F32.ofInt frequency.val)) (F32.ofInt 1000)

/-- The callback `MidiInProc`: the calls it makes, in order. The parameter
`hMidiIn` of the callback hides the global of that name; `hMidiOut` is the global.
`frequency` is `Stopwatch::Frequency`. -/
def MidiInProc (g : Globals) (frequency : Long) (w : Probe) (ev : Event) : List Call :=
  if ev.msg = MIM_DATA then
    [ Call.swStart,
      Call.midiOutShortMsg g.hMidiOut (ev.dwParam1 % 2 ^ 32) (w.sendResult % 2 ^ 32),
      Call.swStop,
      Call.cout (Out.str "Midi Out ms: "),
      Call.cout (Out.flt (milleSecs w.elapsedTicks frequency)),
      Call.cout Out.endl ]
  else
    []

/-- The callback run on a sequence of events, one invocation after the other. -/
def runCallbacks (g : Globals) (frequency : Long) : List (Probe × Event) → List Call
  | [] => []
  | (w, ev) :: rest => MidiInProc g frequency w ev ++ runCallbacks g frequency rest

/-- The send calls of a trace: handle, message and result of each `midiOutShortMsg`. -/
def sends : List Call → List (Nat × Nat × Nat)
  | [] => []
  | Call.midiOutShortMsg h m r :: rest => (h, m, r) :: sends rest
  | _ :: rest => sends rest

/-- The timing lines of a trace: the value of each `"Midi Out ms: " << value << endl`. -/
def timingLines : List Call → List F32
  | Call.cout (Out.str "Midi Out ms: ") :: Call.cout (Out.flt v) :: Call.cout Out.endl :: rest =>
    v :: timingLines rest
  | _ :: rest => timingLines rest
  | [] => []

/-! ## The program -/

/-- The function `PrintUsage`. -/
def PrintUsage : List Call :=
  [ Call.cout (Out.str "CannedBytes.Midi.MidiThruTestAppCpp InPortId OutPortId"),
    Call.cout Out.endl ]

/-- White space as `_wtoi` skips it: space, tab, line feed, vertical tab, form feed,
carriage return. -/
def isWhite (c : Char) : Bool := c.toNat = 32 || (9 ≤ c.toNat && c.toNat ≤ 13)

/-- The decimal value of a run of digits. -/
def digitsValue (ds : List Char) : Nat :=
  ds.foldl (fun acc c => 10 * acc + (c.toNat - 48)) 0

/-- Modelled from the spec: the C runtime function `_wtoi`, which is not part of the
sources: "parsed as integers; non-numeric input parses as 0", a best-effort parse.
Leading white space is skipped, an optional sign is read, then decimal digits up to
the first other character; no digits give 0; values beyond `int` are clamped. -/
def _wtoi (s : String) : Int :=
  let cs := s.toList.dropWhile isWhite
  let neg : Bool := cs.head? = some '-'
  let ds := match cs with
    | '-' :: r => r
    | '+' :: r => r
    | r => r
  let n : Int := digitsValue (ds.takeWhile Char.isDigit)
  if neg then max (-n) (-(2 ^ 31)) else min n (2 ^ 31 - 1)

/-- The local variables `inPortId` and `outPortId` of `_tmain`. -/
structure Locals where
  inPortId : Int
  outPortId : Int
  deriving DecidableEq

/-- How a run of `_tmain` ends: the calls made, the value returned, and the globals
and locals at that point. -/
structure Outcome where
  trace : List Call
  exitCode : Int
  globals : Globals
  locals : Locals
  deriving DecidableEq

/-- The function `_tmain`; `argc` is the length of `argv`. -/
def _tmain (drv : Driver) (argv : List String) : Outcome :=
  let g := Globals.init
  let l : Locals := ⟨0, 0⟩
  let parsed : Option Locals :=
    if argv.length = 3 then
      let l := { l with inPortId := _wtoi (argv.getD 1 "") }
      let l := { l with inPortId := _wtoi (argv.getD 2 "") }
      some l
    else if argv.length ≠ 1 then
      none
    else
      some l
  match parsed with
  | none => ⟨PrintUsage, -1, g, l⟩
  | some l =>
    let outId := toUInt32 l.outPortId
    let result : Int := toInt32 (drv.midiOutOpen outId).1
    let g := { g with hMidiOut := (drv.midiOutOpen outId).2 }
    let t := [Call.midiOutOpen outId ((drv.midiOutOpen outId).1 % 2 ^ 32)]
    if result ≠ 0 then
      ⟨t ++ [Call.cout (Out.str "Midi Out Port could not be opened."), Call.cout Out.endl],
        -1, g, l⟩
    else
      let inId := toUInt32 l.inPortId
      let result : Int := toInt32 (drv.midiInOpen inId).1
      let g := { g with hMidiIn := (drv.midiInOpen inId).2 }
      let t := t ++ [Call.midiInOpen inId ((drv.midiInOpen inId).1 % 2 ^ 32)]
      if result ≠ 0 then
        ⟨t ++ [Call.cout (Out.str "Midi In Port could not be opened."), Call.cout Out.endl],
          -1, g, l⟩
      else
        ⟨t ++ [Call.midiInStart g.hMidiIn,
               Call.cout (Out.str "Press any key to exit..."), Call.cout Out.endl,
               Call.getchar], 0, g, l⟩

/-- A driver that answers every open call with the same result code and handle. -/
def Driver.const (outResult outHandle inResult inHandle : Nat) : Driver :=
  ⟨fun _ => (outResult, outHandle), fun _ => (inResult, inHandle)⟩

/-! ## Sample inputs -/

/-- Globals after both ports were opened, with handles 7 and 9. -/
def sampleGlobals : Globals := ⟨7, 9⟩

/-- A stopwatch frequency of 10 MHz. -/
def sampleFrequency : Long := ⟨10000000, by decide, by decide⟩

/-- A reading of 5 stopwatch ticks. -/
def fiveTicks : Long := ⟨5, by decide, by decide⟩

/-- Two "data received" events (a note-on and a note-off); the second send reports
an error (result 11). -/
def sampleData : List (Probe × Event) :=
  [ (⟨0, fiveTicks⟩, ⟨9, MIM_DATA, 0, 0x00403C90, 17⟩),
    (⟨11, fiveTicks⟩, ⟨9, MIM_DATA, 0, 0x00003C80, 18⟩) ]

/-- An error notification (`MIM_ERROR`, 0x3C5). -/
def sampleError : Event := ⟨9, 0x3C5, 0, 0x00403C90, 17⟩

/-- A driver on which both opens succeed, with handles 7 and 9. -/
def goodDriver : Driver := Driver.const 0 7 0 9

/-- A driver on which the output open fails with result 2. -/
def noOutDriver : Driver := Driver.const 2 0 0 9

/-- A driver on which the output open succeeds and the input open fails with result 2. -/
def noInDriver : Driver := Driver.const 0 7 2 0

/-! ## Auxiliary facts -/

theorem toInt32_eq_zero_iff (u : Nat) : toInt32 u = 0 ↔ u % 2 ^ 32 = 0 := by
  unfold toInt32
  split <;> omega

theorem toUInt32_zero : toUInt32 0 = 0 := by
  simp [toUInt32]

/-- The run of `_tmain` on an argument vector that takes the usage branch. -/
theorem tmain_usage (drv : Driver) (argv : List String)
    (h1 : argv.length ≠ 1) (h3 : argv.length ≠ 3) :
    _tmain drv argv = ⟨PrintUsage, -1, Globals.init, ⟨0, 0⟩⟩ := by
  simp [_tmain, h1, h3]

/-- The three ways a run of `_tmain` can go once the arguments are accepted: the
output open fails, the input open fails, or both succeed. The output device id is 0
and the input port variable holds `inPort`. -/
theorem tmain_cases (drv : Driver) (argv : List String)
    (hacc : argv.length = 1 ∨ argv.length = 3) :
    ∃ inPort : Int, (argv.length = 1 → inPort = 0) ∧
      (argv.length = 3 → inPort = _wtoi (argv.getD 2 "")) ∧
      (((drv.midiOutOpen 0).1 % 2 ^ 32 ≠ 0 ∧
        _tmain drv argv =
          ⟨[Call.midiOutOpen 0 ((drv.midiOutOpen 0).1 % 2 ^ 32),
            Call.cout (Out.str "Midi Out Port could not be opened."), Call.cout Out.endl],
           -1, ⟨(drv.midiOutOpen 0).2, 0⟩, ⟨inPort, 0⟩⟩) ∨
       ((drv.midiOutOpen 0).1 % 2 ^ 32 = 0 ∧
        (drv.midiInOpen (toUInt32 inPort)).1 % 2 ^ 32 ≠ 0 ∧
        _tmain drv argv =
          ⟨[Call.midiOutOpen 0 0,
            Call.midiInOpen (toUInt32 inPort) ((drv.midiInOpen (toUInt32 inPort)).1 % 2 ^ 32),
            Call.cout (Out.str "Midi In Port could not be opened."), Call.cout Out.endl],
           -1, ⟨(drv.midiOutOpen 0).2, (drv.midiInOpen (toUInt32 inPort)).2⟩, ⟨inPort, 0⟩⟩) ∨
       ((drv.midiOutOpen 0).1 % 2 ^ 32 = 0 ∧
        (drv.midiInOpen (toUInt32 inPort)).1 % 2 ^ 32 = 0 ∧
        _tmain drv argv =
          ⟨[Call.midiOutOpen 0 0, Call.midiInOpen (toUInt32 inPort) 0,
            Call.midiInStart (drv.midiInOpen (toUInt32 inPort)).2,
            Call.cout (Out.str "Press any key to exit..."), Call.cout Out.endl,
            Call.getchar],
           0, ⟨(drv.midiOutOpen 0).2, (drv.midiInOpen (toUInt32 inPort)).2⟩, ⟨inPort, 0⟩⟩)) := by
  rcases hacc with h | h
  · refine ⟨0, fun _ => rfl, fun h3 => by omega, ?_⟩
    by_cases ho : (drv.midiOutOpen 0).1 % 4294967296 = 0
    · by_cases hi : (drv.midiInOpen 0).1 % 4294967296 = 0
      · right; right
        simp [_tmain, h, toUInt32_zero, toInt32_eq_zero_iff, ho, hi, Globals.init]
      · right; left
        simp [_tmain, h, toUInt32_zero, toInt32_eq_zero_iff, ho, hi, Globals.init]
    · left
      simp [_tmain, h, toUInt32_zero, toInt32_eq_zero_iff, ho, Globals.init]
  · obtain ⟨p, a, b, rfl⟩ := List.length_eq_three.mp h
    refine ⟨_wtoi b, fun h1 => by simp at h1, fun _ => by simp, ?_⟩
    by_cases ho : (drv.midiOutOpen 0).1 % 4294967296 = 0
    · by_cases hi : (drv.midiInOpen (toUInt32 (_wtoi b))).1 % 4294967296 = 0
      · right; right
        simp [_tmain, toUInt32_zero, toInt32_eq_zero_iff, ho, hi, Globals.init]
      · right; left
        simp [_tmain, toUInt32_zero, toInt32_eq_zero_iff, ho, hi, Globals.init]
    · left
      simp [_tmain, toUInt32_zero, toInt32_eq_zero_iff, ho, Globals.init]

theorem roundHalfEven_le (x : ℚ) (hx : 0 ≤ x) : (roundHalfEven x : ℚ) ≤ x + 1 := by
  have hfl : 0 ≤ x.floor := Int.floor_nonneg.mpr hx
  have hcast : ((x.floor.toNat : Nat) : ℚ) = ((x.floor : Int) : ℚ) := by
    have : ((x.floor.toNat : Nat) : Int) = x.floor := Int.toNat_of_nonneg hfl
    exact_mod_cast congrArg (fun z : Int => (z : ℚ)) this
  have hle : ((x.floor : Int) : ℚ) ≤ x := Int.floor_le x
  unfold roundHalfEven
  simp only
  split_ifs <;> push_cast <;> rw [hcast] <;> linarith

theorem floorLog2_spec (n d : Nat) (hn : 0 < n) :
    (2 : ℚ) ^ (floorLog2 n d) * d ≤ n := by
  unfold floorLog2
  simp only
  split_ifs with h
  · exact h
  · have h1 : 2 ^ n.log2 ≤ n := Nat.log2_self_le (by omega)
    have h2 : d < 2 ^ (d.log2 + 1) := Nat.lt_log2_self
    have h1q : (2 : ℚ) ^ (n.log2 : Int) ≤ n := by
      rw [zpow_natCast]; exact_mod_cast h1
    have h2q : (d : ℚ) ≤ (2 : ℚ) ^ ((d.log2 : Int) + 1) := by
      have : (d : ℚ) ≤ (2 : ℚ) ^ (d.log2 + 1) := by exact_mod_cast h2.le
      rw [show ((d.log2 : Int) + 1) = ((d.log2 + 1 : Nat) : Int) by push_cast; rfl, zpow_natCast]
      exact this
    have hpos : (0 : ℚ) < (2 : ℚ) ^ ((n.log2 : Int) - (d.log2 : Int) - 1) := by positivity
    calc (2 : ℚ) ^ ((n.log2 : Int) - (d.log2 : Int) - 1) * d
        ≤ (2 : ℚ) ^ ((n.log2 : Int) - (d.log2 : Int) - 1) * (2 : ℚ) ^ ((d.log2 : Int) + 1) :=
          mul_le_mul_of_nonneg_left h2q hpos.le
      _ = (2 : ℚ) ^ (n.log2 : Int) := by
          rw [← zpow_add₀ (by norm_num : (2 : ℚ) ≠ 0)]
          congr 1
          ring
      _ ≤ n := h1q

theorem sub_one_le_roundHalfEven (x : ℚ) (hx : 0 ≤ x) : x - 1 ≤ (roundHalfEven x : ℚ) := by
  have hfl : 0 ≤ x.floor := Int.floor_nonneg.mpr hx
  have hcast : ((x.floor.toNat : Nat) : ℚ) = ((x.floor : Int) : ℚ) := by
    have : ((x.floor.toNat : Nat) : Int) = x.floor := Int.toNat_of_nonneg hfl
    exact_mod_cast congrArg (fun z : Int => (z : ℚ)) this
  have hlt : x < ((x.floor : Int) : ℚ) + 1 := Int.lt_floor_add_one x
  unfold roundHalfEven
  simp only
  split_ifs <;> push_cast <;> rw [hcast] <;> linarith

/-- What `roundF32` does to a positive rational: it moves it by at most one unit `u`
in the last place, where `u` is at most `q / 2 ^ 23` or is the smallest spacing. -/
theorem roundF32_spec (q : ℚ) (hq : 0 < q) :
    ∃ u v : ℚ, 0 < u ∧ (u ≤ q / 2 ^ (23 : Nat) ∨ u = (2 : ℚ) ^ (-149 : Int)) ∧
      q - u ≤ v ∧ v ≤ q + u ∧ 0 ≤ v ∧
      roundF32 q = if (2 : ℚ) ^ (128 : Nat) ≤ v then F32.inf false else F32.num v := by
  have hq0 : q ≠ 0 := hq.ne'
  have hn : ¬ q < 0 := not_lt.mpr hq.le
  have habs : |q| = q := abs_of_pos hq
  have hnum : 0 < q.num := Rat.num_pos.mpr hq
  have hqnd : ((q.num.toNat : Nat) : ℚ) / (q.den : ℚ) = q := by
    have : ((q.num.toNat : Nat) : ℚ) = ((q.num : Int) : ℚ) := by
      have h : ((q.num.toNat : Nat) : Int) = q.num := Int.toNat_of_nonneg hnum.le
      exact_mod_cast congrArg (fun z : Int => (z : ℚ)) h
    rw [this]
    exact Rat.num_div_den q
  have hden : (0 : ℚ) < (q.den : ℚ) := by exact_mod_cast q.den_pos
  have hspec := floorLog2_spec q.num.toNat q.den (by omega)
  have hfl : (2 : ℚ) ^ (floorLog2 q.num.toNat q.den) ≤ q := by
    have h := (le_div_iff₀ hden).mpr hspec
    rwa [hqnd] at h
  generalize hE : max (floorLog2 q.num.toNat q.den) (-126) = e
  have hulp_pos : (0 : ℚ) < (2 : ℚ) ^ (e - 23) := by positivity
  have hulp : (2 : ℚ) ^ (e - 23) ≤ q / 2 ^ (23 : Nat) ∨ (2 : ℚ) ^ (e - 23) = (2 : ℚ) ^ (-149 : Int) := by
    rcases max_cases (floorLog2 q.num.toNat q.den) (-126) with ⟨hm, _⟩ | ⟨hm, _⟩
    · left
      rw [← hE, hm, zpow_sub₀ (by norm_num : (2 : ℚ) ≠ 0)]
      have h23 : (2 : ℚ) ^ (23 : Int) = 2 ^ (23 : Nat) := by norm_num
      rw [h23]
      exact div_le_div_of_nonneg_right hfl (by positivity)
    · right
      rw [← hE, hm]
      norm_num
  have hm1 := sub_one_le_roundHalfEven (q / (2 : ℚ) ^ (e - 23)) (by positivity)
  have hm2 := roundHalfEven_le (q / (2 : ℚ) ^ (e - 23)) (by positivity)
  have heq1 : (q / (2 : ℚ) ^ (e - 23) + 1) * (2 : ℚ) ^ (e - 23) = q + (2 : ℚ) ^ (e - 23) := by
    field_simp
  have heq2 : (q / (2 : ℚ) ^ (e - 23) - 1) * (2 : ℚ) ^ (e - 23) = q - (2 : ℚ) ^ (e - 23) := by
    field_simp
  refine ⟨(2 : ℚ) ^ (e - 23),
    (roundHalfEven (q / (2 : ℚ) ^ (e - 23)) : ℚ) * (2 : ℚ) ^ (e - 23), hulp_pos, hulp, ?_, ?_, ?_, ?_⟩
  · rw [← heq2]
    exact mul_le_mul_of_nonneg_right hm1 hulp_pos.le
  · rw [← heq1]
    exact mul_le_mul_of_nonneg_right hm2 hulp_pos.le
  · positivity
  · unfold roundF32
    simp only [hq0, hn, habs, hE, if_false, decide_False]

theorem roundF32_pos (q : ℚ) (h1 : 1 ≤ q) (h2 : q < 2 ^ (64 : Nat)) :
    ∃ b : ℚ, q / 2 ≤ b ∧ b ≤ 2 * q ∧ roundF32 q = F32.num b := by
  obtain ⟨u, v, hu, hub, hlo, hhi, _, hr⟩ := roundF32_spec q (by linarith)
  have hu2 : u ≤ q / 2 := by
    rcases hub with h | h
    · have : q / 2 ^ (23 : Nat) ≤ q / 2 :=
        div_le_div_of_nonneg_left (by linarith) (by norm_num) (by norm_num)
      linarith
    · have : (2 : ℚ) ^ (-149 : Int) ≤ 1 / 2 := by
        rw [show (1 / 2 : ℚ) = (2 : ℚ) ^ (-1 : Int) by norm_num]
        exact zpow_le_zpow_right₀ (by norm_num) (by norm_num)
      rw [h]
      exact this.trans (by linarith)
  have hbig : (2 : ℚ) * 2 ^ (64 : Nat) ≤ (2 : ℚ) ^ (128 : Nat) := by norm_num
  have hv : ¬ (2 : ℚ) ^ (128 : Nat) ≤ v := by
    rw [not_le]; linarith
  refine ⟨v, by linarith, by linarith, ?_⟩
  rw [hr, if_neg hv]

theorem roundF32_finite (q : ℚ) (h0 : 0 ≤ q) (h2 : q < 2 ^ (100 : Nat)) :
    ∃ v : ℚ, 0 ≤ v ∧ v ≤ 2 * q + 1 ∧ roundF32 q = F32.num v := by
  rcases h0.eq_or_lt with h | h
  · subst h
    exact ⟨0, le_refl _, by norm_num, by simp [roundF32]⟩
  · obtain ⟨u, v, hu, hub, hlo, hhi, hv0, hr⟩ := roundF32_spec q h
    have hu2 : u ≤ q + 1 := by
      rcases hub with h' | h'
      · have : q / 2 ^ (23 : Nat) ≤ q / 1 :=
          div_le_div_of_nonneg_left h.le (by norm_num) (by norm_num)
        rw [div_one] at this
        linarith
      · have : (2 : ℚ) ^ (-149 : Int) ≤ (2 : ℚ) ^ (0 : Int) :=
          zpow_le_zpow_right₀ (by norm_num) (by norm_num)
        rw [zpow_zero] at this
        rw [h']
        exact this.trans (by linarith)
    have hbig : (2 : ℚ) * 2 ^ (100 : Nat) + 1 < (2 : ℚ) ^ (128 : Nat) := by norm_num
    have hv : ¬ (2 : ℚ) ^ (128 : Nat) ≤ v := by
      rw [not_le]; linarith
    refine ⟨v, hv0, by linarith, ?_⟩
    rw [hr, if_neg hv]

theorem ofInt_pos (i : Int) (h1 : 0 < i) (h2 : i < 2 ^ 63) :
    ∃ b : ℚ, (i : ℚ) / 2 ≤ b ∧ b ≤ 2 * (i : ℚ) ∧ F32.ofInt i = F32.num b := by
  unfold F32.ofInt
  apply roundF32_pos
  · exact_mod_cast (by omega : (1 : Int) ≤ i)
  · have : i < 2 ^ 64 := by omega
    exact_mod_cast this

theorem ofInt_nonneg (i : Int) (h1 : 0 ≤ i) (h2 : i < 2 ^ 63) :
    ∃ a : ℚ, 0 ≤ a ∧ a ≤ 2 * (i : ℚ) ∧ F32.ofInt i = F32.num a := by
  rcases h1.eq_or_lt with h | h
  · subst h
    exact ⟨0, le_refl _, by simp, by simp [F32.ofInt, roundF32]⟩
  · obtain ⟨b, hb, hb2, he⟩ := ofInt_pos i h h2
    have : (0 : ℚ) < (i : ℚ) := by exact_mod_cast h
    exact ⟨b, by linarith, hb2, he⟩

/-- The timing value is a finite, non-negative number whenever the stopwatch reading
is non-negative and the stopwatch frequency is positive. -/
theorem milleSecs_finite (t f : Long) (ht : 0 ≤ t.val) (hf : 0 < f.val) :
    ∃ v : ℚ, 0 ≤ v ∧ milleSecs t f = F32.num v := by
  obtain ⟨a, ha, ha2, hta⟩ := ofInt_nonneg t.val ht t.hi
  obtain ⟨b, hb, _, hfb⟩ := ofInt_pos f.val hf f.hi
  obtain ⟨k, hk, hk2, hkk⟩ := ofInt_pos 1000 (by norm_num) (by norm_num)
  have hf1 : (1 : ℚ) ≤ (f.val : ℚ) := by exact_mod_cast (by omega : (1 : Int) ≤ f.val)
  have ht63 : (t.val : ℚ) < 2 ^ (63 : Nat) := by exact_mod_cast t.hi
  have hb0 : 0 < b := by linarith
  have hb2 : (1 : ℚ) / 2 ≤ b := by linarith
  have hab : a / b ≤ 2 * a := by
    rw [div_le_iff₀ hb0]
    nlinarith
  have hab0 : 0 ≤ a / b := div_nonneg ha hb0.le
  have h64 : (2 : ℚ) * (2 * 2 ^ (63 : Nat)) < 2 ^ (100 : Nat) := by norm_num
  obtain ⟨c, hc0, hc2, hc⟩ := roundF32_finite (a / b) hab0 (by linarith)
  have hk0 : 0 < k := by push_cast at hk; linarith
  have hk2000 : k ≤ 2000 := by push_cast at hk2; linarith
  have hck : c * k < 2 ^ (100 : Nat) := by
    have hc66 : c ≤ 2 * (2 * (2 * 2 ^ (63 : Nat))) + 1 := by linarith
    have h1 : c * k ≤ (2 * (2 * (2 * 2 ^ (63 : Nat))) + 1) * 2000 :=
      mul_le_mul hc66 hk2000 hk0.le (by norm_num)
    have h2 : ((2 : ℚ) * (2 * (2 * 2 ^ (63 : Nat))) + 1) * 2000 < 2 ^ (100 : Nat) := by norm_num
    linarith
  obtain ⟨v, hv0, _, hv⟩ := roundF32_finite (c * k) (mul_nonneg hc0 hk0.le) hck
  refine ⟨v, hv0, ?_⟩
  unfold milleSecs
  rw [hta, hfb, hkk]
  simp only [F32.div, hb0.ne', if_false, hc, F32.mul, hv]


/-! ## The callback on a sequence of events -/

theorem sends_runCallbacks (g : Globals) (frequency : Long) (xs : List (Probe × Event)) :
    sends (runCallbacks g frequency xs) =
      (xs.filter (fun x => decide (x.2.msg = MIM_DATA))).map
        (fun x => (g.hMidiOut, x.2.dwParam1 % 2 ^ 32, x.1.sendResult % 2 ^ 32)) := by
  induction xs with
  | nil => simp [runCallbacks, sends]
  | cons x rest ih =>
    obtain ⟨w, ev⟩ := x
    by_cases h : ev.msg = MIM_DATA
    · simp [runCallbacks, MidiInProc, sends, h, ih]
    · simp [runCallbacks, MidiInProc, h, ih]

theorem timingLines_runCallbacks (g : Globals) (frequency : Long) (xs : List (Probe × Event)) :
    timingLines (runCallbacks g frequency xs) =
      (xs.filter (fun x => decide (x.2.msg = MIM_DATA))).map
        (fun x => milleSecs x.1.elapsedTicks frequency) := by
  induction xs with
  | nil => simp [runCallbacks, timingLines]
  | cons x rest ih =>
    obtain ⟨w, ev⟩ := x
    by_cases h : ev.msg = MIM_DATA
    · simp [runCallbacks, MidiInProc, timingLines, h, ih]
    · simp [runCallbacks, MidiInProc, h, ih]

theorem byteOf_mod (v k : Nat) (hk : k < 4) : byteOf (v % 2 ^ 32) k = byteOf v k := by
  unfold byteOf
  have h : k = 0 ∨ k = 1 ∨ k = 2 ∨ k = 3 := by omega
  rcases h with rfl | rfl | rfl | rfl <;> norm_num <;> omega


theorem head_mem_of_split {α : Type} (a c : α) (rest before after : List α)
    (h : a :: rest = before ++ c :: after) (hne : c ≠ a) : a ∈ before := by
  cases before with
  | nil =>
    simp at h
    exact absurd h.1.symm hne
  | cons b bs =>
    simp at h
    rw [h.1]
    simp

/-! ## The claims -/

/-- C1: run on a sequence of N "data received" events, the callback issues exactly N
`midiOutShortMsg` calls, all on the global output handle, and the i-th call carries the
32-bit payload of the i-th event's `dwParam1`: the same four bytes, in the same order of
events (and `dwParam1` itself when it fits in 32 bits). -/
theorem data_events_forwarded_verbatim (g : Globals) (frequency : Long)
    (xs : List (Probe × Event)) (hdata : ∀ x ∈ xs, x.2.msg = MIM_DATA) :
    (sends (runCallbacks g frequency xs)).length = xs.length ∧
    (sends (runCallbacks g frequency xs)).map (fun s => s.2.1)
      = xs.map (fun x => x.2.dwParam1 % 2 ^ 32) ∧
    ∀ (i : Nat) (x : Probe × Event), xs[i]? = some x →
      ∃ s, (sends (runCallbacks g frequency xs))[i]? = some s ∧ s.1 = g.hMidiOut ∧
        (∀ k, k < 4 → byteOf s.2.1 k = byteOf x.2.dwParam1 k) ∧
        (x.2.dwParam1 < 2 ^ 32 → s.2.1 = x.2.dwParam1) := by
  have hfilter : xs.filter (fun x => decide (x.2.msg = MIM_DATA)) = xs :=
    List.filter_eq_self.mpr (fun x hx => by simpa using hdata x hx)
  rw [sends_runCallbacks, hfilter]
  refine ⟨by simp, by simp, ?_⟩
  intro i x hx
  refine ⟨(g.hMidiOut, x.2.dwParam1 % 2 ^ 32, x.1.sendResult % 2 ^ 32), ?_, rfl, ?_, ?_⟩
  · simp [hx]
  · intro k hk
    exact byteOf_mod _ _ hk
  · intro hlt
    exact Nat.mod_eq_of_lt hlt

/-- C1 on the two sample events: two sends, with the payloads of the events. -/
theorem data_events_forwarded_verbatim_witness :
    (∀ x ∈ sampleData, x.2.msg = MIM_DATA) ∧
    (sends (runCallbacks sampleGlobals sampleFrequency sampleData)).length = 2 ∧
    (sends (runCallbacks sampleGlobals sampleFrequency sampleData)).map (fun s => s.2.1)
      = [0x00403C90, 0x00003C80] :=
  ⟨by decide,
   (data_events_forwarded_verbatim sampleGlobals sampleFrequency sampleData (by decide)).1,
   (data_events_forwarded_verbatim sampleGlobals sampleFrequency sampleData (by decide)).2.1⟩

/-- C3: on an event that is not "data received" the callback makes no call at all:
no send and no log line. -/
theorem non_data_event_ignored (g : Globals) (frequency : Long) (w : Probe) (ev : Event)
    (h : ev.msg ≠ MIM_DATA) :
    MidiInProc g frequency w ev = [] ∧
    sends (MidiInProc g frequency w ev) = [] ∧
    timingLines (MidiInProc g frequency w ev) = [] := by
  have h0 : MidiInProc g frequency w ev = [] := by simp [MidiInProc, h]
  rw [h0]
  exact ⟨rfl, rfl, rfl⟩

/-- C3 on an error notification. -/
theorem non_data_event_ignored_witness :
    sampleError.msg ≠ MIM_DATA ∧
    MidiInProc sampleGlobals sampleFrequency ⟨0, fiveTicks⟩ sampleError = [] :=
  ⟨by decide,
   (non_data_event_ignored sampleGlobals sampleFrequency ⟨0, fiveTicks⟩ sampleError
      (by decide)).1⟩

/-- C4: with an argument count other than 1 and 3, `_tmain` prints exactly the usage
line, returns -1, and calls neither `midiOutOpen` nor `midiInOpen`. -/
theorem usage_on_other_argument_counts (drv : Driver) (argv : List String)
    (h1 : argv.length ≠ 1) (h3 : argv.length ≠ 3) :
    (_tmain drv argv).trace =
      [Call.cout (Out.str "CannedBytes.Midi.MidiThruTestAppCpp InPortId OutPortId"),
       Call.cout Out.endl] ∧
    (_tmain drv argv).exitCode = -1 ∧
    (∀ id r, Call.midiOutOpen id r ∉ (_tmain drv argv).trace) ∧
    (∀ id r, Call.midiInOpen id r ∉ (_tmain drv argv).trace) := by
  rw [tmain_usage drv argv h1 h3]
  simp [PrintUsage]

/-- C4 on `prog 1 2 3`. -/
theorem usage_on_other_argument_counts_witness :
    ["prog", "1", "2", "3"].length ≠ 1 ∧ ["prog", "1", "2", "3"].length ≠ 3 ∧
    (_tmain goodDriver ["prog", "1", "2", "3"]).trace =
      [Call.cout (Out.str "CannedBytes.Midi.MidiThruTestAppCpp InPortId OutPortId"),
       Call.cout Out.endl] ∧
    (_tmain goodDriver ["prog", "1", "2", "3"]).exitCode = -1 :=
  ⟨by decide, by decide,
   (usage_on_other_argument_counts goodDriver ["prog", "1", "2", "3"]
      (by decide) (by decide)).1,
   (usage_on_other_argument_counts goodDriver ["prog", "1", "2", "3"]
      (by decide) (by decide)).2.1⟩

/-- C5: when the arguments are accepted and the driver fails the output open that
`_tmain` asks for, the run is: the `midiOutOpen` call, the line "Midi Out Port could not
be opened.", return -1; `midiInOpen`, `midiInStart` and the exit prompt do not occur. -/
theorem output_open_failure (drv : Driver) (argv : List String)
    (hacc : argv.length = 1 ∨ argv.length = 3)
    (hfail : (drv.midiOutOpen (toUInt32 (_tmain drv argv).locals.outPortId)).1 % 2 ^ 32 ≠ 0) :
    (_tmain drv argv).trace =
      [Call.midiOutOpen (toUInt32 (_tmain drv argv).locals.outPortId)
         ((drv.midiOutOpen (toUInt32 (_tmain drv argv).locals.outPortId)).1 % 2 ^ 32),
       Call.cout (Out.str "Midi Out Port could not be opened."), Call.cout Out.endl] ∧
    (_tmain drv argv).exitCode = -1 ∧
    (∀ id r, Call.midiInOpen id r ∉ (_tmain drv argv).trace) ∧
    (∀ h, Call.midiInStart h ∉ (_tmain drv argv).trace) ∧
    Call.cout (Out.str "Press any key to exit...") ∉ (_tmain drv argv).trace := by
  obtain ⟨inPort, _, _, hc⟩ := tmain_cases drv argv hacc
  rcases hc with ⟨_, he⟩ | ⟨ho, _, he⟩ | ⟨ho, _, he⟩
  · rw [he]
    simp [toUInt32_zero]
  · rw [he] at hfail
    simp [toUInt32_zero] at hfail
    exact absurd ho hfail
  · rw [he] at hfail
    simp [toUInt32_zero] at hfail
    exact absurd ho hfail

/-- C5 on `prog 3 5` with a driver that fails the output open with result 2. -/
theorem output_open_failure_witness :
    (["prog", "3", "5"].length = 1 ∨ ["prog", "3", "5"].length = 3) ∧
    (noOutDriver.midiOutOpen
      (toUInt32 (_tmain noOutDriver ["prog", "3", "5"]).locals.outPortId)).1 % 2 ^ 32 ≠ 0 ∧
    (_tmain noOutDriver ["prog", "3", "5"]).exitCode = -1 ∧
    (∀ id r, Call.midiInOpen id r ∉ (_tmain noOutDriver ["prog", "3", "5"]).trace) :=
  ⟨by decide, by decide,
   (output_open_failure noOutDriver ["prog", "3", "5"] (by decide) (by decide)).2.1,
   (output_open_failure noOutDriver ["prog", "3", "5"] (by decide) (by decide)).2.2.1⟩


/-- C6: when the arguments are accepted, the output open succeeds and the driver fails
the input open that `_tmain` asks for, the run is: `midiOutOpen` (result 0), `midiInOpen`,
the line "Midi In Port could not be opened.", return -1; the output-specific line,
`midiInStart` and the exit prompt do not occur. -/
theorem input_open_failure (drv : Driver) (argv : List String)
    (hacc : argv.length = 1 ∨ argv.length = 3)
    (hout : (drv.midiOutOpen (toUInt32 (_tmain drv argv).locals.outPortId)).1 % 2 ^ 32 = 0)
    (hin : (drv.midiInOpen (toUInt32 (_tmain drv argv).locals.inPortId)).1 % 2 ^ 32 ≠ 0) :
    (_tmain drv argv).trace =
      [Call.midiOutOpen (toUInt32 (_tmain drv argv).locals.outPortId) 0,
       Call.midiInOpen (toUInt32 (_tmain drv argv).locals.inPortId)
         ((drv.midiInOpen (toUInt32 (_tmain drv argv).locals.inPortId)).1 % 2 ^ 32),
       Call.cout (Out.str "Midi In Port could not be opened."), Call.cout Out.endl] ∧
    (_tmain drv argv).exitCode = -1 ∧
    Call.cout (Out.str "Midi Out Port could not be opened.") ∉ (_tmain drv argv).trace ∧
    (∀ h, Call.midiInStart h ∉ (_tmain drv argv).trace) ∧
    Call.cout (Out.str "Press any key to exit...") ∉ (_tmain drv argv).trace := by
  obtain ⟨inPort, _, _, hc⟩ := tmain_cases drv argv hacc
  rcases hc with ⟨ho, he⟩ | ⟨_, _, he⟩ | ⟨_, hi, he⟩
  · rw [he] at hout
    simp [toUInt32_zero] at hout
    exact absurd hout ho
  · rw [he]
    simp [toUInt32_zero]
  · rw [he] at hin
    simp at hin
    exact absurd hi hin

/-- C6 on `prog 3 5` with a driver that opens the output and fails the input open. -/
theorem input_open_failure_witness :
    (["prog", "3", "5"].length = 1 ∨ ["prog", "3", "5"].length = 3) ∧
    (noInDriver.midiOutOpen
      (toUInt32 (_tmain noInDriver ["prog", "3", "5"]).locals.outPortId)).1 % 2 ^ 32 = 0 ∧
    (noInDriver.midiInOpen
      (toUInt32 (_tmain noInDriver ["prog", "3", "5"]).locals.inPortId)).1 % 2 ^ 32 ≠ 0 ∧
    (_tmain noInDriver ["prog", "3", "5"]).exitCode = -1 ∧
    (∀ h, Call.midiInStart h ∉ (_tmain noInDriver ["prog", "3", "5"]).trace) :=
  ⟨by decide, by decide, by decide,
   (input_open_failure noInDriver ["prog", "3", "5"] (by decide) (by decide) (by decide)).2.1,
   (input_open_failure noInDriver ["prog", "3", "5"] (by decide) (by decide) (by decide)).2.2.2.1⟩

/-- C7: in every run of `_tmain`, whatever the driver and the arguments, a `midiInOpen`
or `midiInStart` call is preceded in the trace by a `midiOutOpen` call that returned 0;
and in a run that reaches `midiInOpen`, the global `hMidiOut` holds the handle that the
driver stored for that open, so every send of the callback run on these globals goes to
that handle. -/
theorem output_opened_before_input (drv : Driver) (argv : List String) :
    (∀ (before after : List Call) (c : Call),
      (_tmain drv argv).trace = before ++ c :: after →
      ((∃ id r, c = Call.midiInOpen id r) ∨ (∃ h, c = Call.midiInStart h)) →
      ∃ id, Call.midiOutOpen id 0 ∈ before) ∧
    (∀ id r, Call.midiInOpen id r ∈ (_tmain drv argv).trace →
      (_tmain drv argv).globals.hMidiOut
        = (drv.midiOutOpen (toUInt32 (_tmain drv argv).locals.outPortId)).2 ∧
      ∀ (frequency : Long) (xs : List (Probe × Event)),
        ∀ s ∈ sends (runCallbacks (_tmain drv argv).globals frequency xs),
          s.1 = (drv.midiOutOpen (toUInt32 (_tmain drv argv).locals.outPortId)).2) := by
  by_cases hacc : argv.length = 1 ∨ argv.length = 3
  · obtain ⟨inPort, _, _, hc⟩ := tmain_cases drv argv hacc
    rcases hc with ⟨_, he⟩ | ⟨_, _, he⟩ | ⟨_, _, he⟩ <;> rw [he] <;> constructor
    · intro before after c ht hc
      have hmem : c ∈ [Call.midiOutOpen 0 ((drv.midiOutOpen 0).1 % 2 ^ 32),
          Call.cout (Out.str "Midi Out Port could not be opened."), Call.cout Out.endl] := by
        have ht2 : [Call.midiOutOpen 0 ((drv.midiOutOpen 0).1 % 2 ^ 32),
          Call.cout (Out.str "Midi Out Port could not be opened."), Call.cout Out.endl]
            = before ++ c :: after := ht
        rw [ht2]; simp
      rcases hc with ⟨id, r, rfl⟩ | ⟨h, rfl⟩ <;> simp at hmem
    · intro id r hmem
      simp at hmem
    · intro before after c ht hc
      refine ⟨0, head_mem_of_split _ c _ before after ht ?_⟩
      rcases hc with ⟨id, r, rfl⟩ | ⟨h, rfl⟩ <;> simp
    · intro id r _
      refine ⟨by simp [toUInt32_zero], ?_⟩
      intro frequency xs s hs
      rw [sends_runCallbacks] at hs
      simp only [List.mem_map] at hs
      obtain ⟨x, _, rfl⟩ := hs
      simp [toUInt32_zero]
    · intro before after c ht hc
      refine ⟨0, head_mem_of_split _ c _ before after ht ?_⟩
      rcases hc with ⟨id, r, rfl⟩ | ⟨h, rfl⟩ <;> simp
    · intro id r _
      refine ⟨by simp [toUInt32_zero], ?_⟩
      intro frequency xs s hs
      rw [sends_runCallbacks] at hs
      simp only [List.mem_map] at hs
      obtain ⟨x, _, rfl⟩ := hs
      simp [toUInt32_zero]
  · have h1 : argv.length ≠ 1 := fun h => hacc (Or.inl h)
    have h3 : argv.length ≠ 3 := fun h => hacc (Or.inr h)
    rw [tmain_usage drv argv h1 h3]
    constructor
    · intro before after c ht hc
      have hmem : c ∈ PrintUsage := by
        have ht2 : PrintUsage = before ++ c :: after := ht
        rw [ht2]; simp
      rcases hc with ⟨id, r, rfl⟩ | ⟨h, rfl⟩ <;> simp [PrintUsage] at hmem
    · intro id r hmem
      simp [PrintUsage] at hmem


/-- C7 on `prog 3 5` with both opens succeeding: the `midiInOpen` call comes after the
successful `midiOutOpen`. -/
theorem output_opened_before_input_witness :
    (_tmain goodDriver ["prog", "3", "5"]).trace =
      [Call.midiOutOpen 0 0] ++ Call.midiInOpen 5 0 ::
        [Call.midiInStart 9, Call.cout (Out.str "Press any key to exit..."),
         Call.cout Out.endl, Call.getchar] ∧
    ∃ id, Call.midiOutOpen id 0 ∈ [Call.midiOutOpen 0 0] :=
  ⟨by decide,
   (output_opened_before_input goodDriver ["prog", "3", "5"]).1 [Call.midiOutOpen 0 0]
     [Call.midiInStart 9, Call.cout (Out.str "Press any key to exit..."),
      Call.cout Out.endl, Call.getchar] (Call.midiInOpen 5 0) (by decide)
     (Or.inl ⟨5, 0, rfl⟩)⟩

/-- C8: invoked with no argument, `_tmain` leaves both port variables at 0, asks
`midiOutOpen` for device 0 first and `midiInOpen` (when reached) for device 0; when
both opens succeed the run is: the two opens, `midiInStart` on the input handle, the
line "Press any key to exit...", `getchar`, return 0. -/
theorem no_arguments_default_ports (drv : Driver) (prog : String) :
    (_tmain drv [prog]).locals = ⟨0, 0⟩ ∧
    (_tmain drv [prog]).trace.head? =
      some (Call.midiOutOpen 0 ((drv.midiOutOpen 0).1 % 2 ^ 32)) ∧
    (∀ id r, Call.midiOutOpen id r ∈ (_tmain drv [prog]).trace → id = 0) ∧
    (∀ id r, Call.midiInOpen id r ∈ (_tmain drv [prog]).trace → id = 0) ∧
    ((drv.midiOutOpen 0).1 % 2 ^ 32 = 0 → (drv.midiInOpen 0).1 % 2 ^ 32 = 0 →
      (_tmain drv [prog]).trace =
        [Call.midiOutOpen 0 0, Call.midiInOpen 0 0, Call.midiInStart (drv.midiInOpen 0).2,
         Call.cout (Out.str "Press any key to exit..."), Call.cout Out.endl, Call.getchar] ∧
      (_tmain drv [prog]).exitCode = 0) := by
  obtain ⟨inPort, h0, _, hc⟩ := tmain_cases drv [prog] (Or.inl rfl)
  have hz : inPort = 0 := h0 rfl
  subst hz
  rw [toUInt32_zero] at hc
  rcases hc with ⟨ho, he⟩ | ⟨ho, hi, he⟩ | ⟨ho, hi, he⟩ <;> rw [he]
  · refine ⟨rfl, rfl, ?_, ?_, ?_⟩
    · intro id r hmem
      simp at hmem
      exact hmem.1
    · intro id r hmem
      simp at hmem
    · intro h
      exact absurd h ho
  · refine ⟨rfl, by rw [ho]; rfl, ?_, ?_, ?_⟩
    · intro id r hmem
      simp at hmem
      exact hmem.1
    · intro id r hmem
      simp at hmem
      exact hmem.1
    · intro _ h
      exact absurd h hi
  · refine ⟨rfl, by rw [ho]; rfl, ?_, ?_, ?_⟩
    · intro id r hmem
      simp at hmem
      exact hmem.1
    · intro id r hmem
      simp at hmem
      exact hmem.1
    · intro _ _
      exact ⟨rfl, rfl⟩

/-- C8 on `prog` with both opens succeeding (handles 7 and 9). -/
theorem no_arguments_default_ports_witness :
    (goodDriver.midiOutOpen 0).1 % 2 ^ 32 = 0 ∧ (goodDriver.midiInOpen 0).1 % 2 ^ 32 = 0 ∧
    (_tmain goodDriver ["prog"]).trace =
      [Call.midiOutOpen 0 0, Call.midiInOpen 0 0, Call.midiInStart 9,
       Call.cout (Out.str "Press any key to exit..."), Call.cout Out.endl, Call.getchar] ∧
    (_tmain goodDriver ["prog"]).exitCode = 0 :=
  ⟨by decide, by decide,
   (no_arguments_default_ports goodDriver "prog").2.2.2.2 (by decide) (by decide)⟩

/-- C9: each invocation of the callback on a "data received" event makes, in this
order, `sw->Start()`, the send, `sw->Stop()` and the three insertions of one line
"Midi Out ms: " value; whatever result the send reports. Over a sequence of events there
are as many timing lines as sends, the values are
`((float)ticks / (float)frequency) * 1000` in `float` arithmetic, and with non-negative
tick counts and a positive frequency each value is a finite number that is at least 0. -/
theorem timing_line_per_send (g : Globals) (frequency : Long) (xs : List (Probe × Event))
    (hf : 0 < frequency.val) (ht : ∀ x ∈ xs, 0 ≤ x.1.elapsedTicks.val) :
    (∀ x ∈ xs, x.2.msg = MIM_DATA →
      MidiInProc g frequency x.1 x.2 =
        [Call.swStart,
         Call.midiOutShortMsg g.hMidiOut (x.2.dwParam1 % 2 ^ 32) (x.1.sendResult % 2 ^ 32),
         Call.swStop,
         Call.cout (Out.str "Midi Out ms: "),
         Call.cout (Out.flt (F32.mul (F32.div (F32.ofInt x.1.elapsedTicks.val)
           (F32.ofInt frequency.val)) (F32.ofInt 1000))),
         Call.cout Out.endl]) ∧
    (timingLines (runCallbacks g frequency xs)).length
      = (sends (runCallbacks g frequency xs)).length ∧
    timingLines (runCallbacks g frequency xs) =
      (xs.filter (fun x => decide (x.2.msg = MIM_DATA))).map
        (fun x => F32.mul (F32.div (F32.ofInt x.1.elapsedTicks.val)
           (F32.ofInt frequency.val)) (F32.ofInt 1000)) ∧
    (∀ v ∈ timingLines (runCallbacks g frequency xs), ∃ q : ℚ, 0 ≤ q ∧ v = F32.num q) := by
  refine ⟨?_, ?_, ?_, ?_⟩
  · intro x _ hm
    simp [MidiInProc, hm, milleSecs]
  · rw [timingLines_runCallbacks, sends_runCallbacks]
    simp
  · rw [timingLines_runCallbacks]
    rfl
  · intro v hv
    rw [timingLines_runCallbacks] at hv
    simp only [List.mem_map] at hv
    obtain ⟨x, hx, rfl⟩ := hv
    have hx2 : x ∈ xs := (List.mem_filter.mp hx).1
    obtain ⟨q, hq, he⟩ := milleSecs_finite x.1.elapsedTicks frequency (ht x hx2) hf
    exact ⟨q, hq, he⟩

/-- C9 on the two sample events (5 ticks each at 10 MHz; the second send reports an
error): two timing lines, both finite and at least 0. -/
theorem timing_line_per_send_witness :
    0 < sampleFrequency.val ∧ (∀ x ∈ sampleData, 0 ≤ x.1.elapsedTicks.val) ∧
    (timingLines (runCallbacks sampleGlobals sampleFrequency sampleData)).length
      = (sends (runCallbacks sampleGlobals sampleFrequency sampleData)).length ∧
    (∀ v ∈ timingLines (runCallbacks sampleGlobals sampleFrequency sampleData),
      ∃ q : ℚ, 0 ≤ q ∧ v = F32.num q) :=
  ⟨by decide, by decide,
   (timing_line_per_send sampleGlobals sampleFrequency sampleData (by decide) (by decide)).2.1,
   (timing_line_per_send sampleGlobals sampleFrequency sampleData (by decide) (by decide)).2.2.2⟩

/-- C2, evaluated on `prog 3 5` with both opens succeeding: `midiOutOpen` is asked for
device 0 (not 5) and `midiInOpen` for device 5 (not 3); the output port variable is
still 0 at the end. -/
theorem two_arguments_ports_at_3_5 :
    (_tmain goodDriver ["prog", "3", "5"]).trace =
      [Call.midiOutOpen 0 0, Call.midiInOpen 5 0, Call.midiInStart 9,
       Call.cout (Out.str "Press any key to exit..."), Call.cout Out.endl, Call.getchar] ∧
    (_tmain goodDriver ["prog", "3", "5"]).locals = ⟨5, 0⟩ ∧
    Call.midiOutOpen 5 0 ∉ (_tmain goodDriver ["prog", "3", "5"]).trace ∧
    Call.midiInOpen 3 0 ∉ (_tmain goodDriver ["prog", "3", "5"]).trace := by
  decide

end MidiThru
